import Mathlib

/-!
Shallow embedding of the calculator engine in `src/script.js` (the state machine over
`currentInput`, `accumulator`, `pendingOp`, `lastPressedEquals`, together with
`updateDisplay`, `compute`, `inputDigit`, `clearAll`, `toggleNegate`, `percent`,
`pressOperator`, `pressEquals`, `roundForDisplay` and the keydown Backspace handler).

JavaScript numbers are modelled exactly as rationals (plus NaN and the two infinities).
All values the claims exercise (small integers and short decimal fractions) are exactly
representable IEEE doubles on which double arithmetic is exact, so the embedding agrees
with the source on them.  Number-to-string conversion follows the ECMAScript
`Number::toString`, `toPrecision` and `toExponential` algorithms on exact rationals.
-/

namespace CalcSpec

/-- An unnormalized rational: numerator over a positive denominator.  Kept unnormalized
so that all arithmetic is plain integer arithmetic (kernel friendly). -/
structure Frac where
  n : Int
  d : Nat
deriving DecidableEq

/-- A JavaScript number: a finite rational, NaN, or a signed infinity. -/
inductive JSNum where
  | fin (q : Frac)
  | nan
  | inf
  | neginf
deriving DecidableEq

/-- `Number.isFinite`. -/
def isFinite : JSNum → Bool
  | .fin _ => true
  | _ => false

/-- The four operators of the calculator, after normalization by the `opMap` in
`pressOperator` (`×` to `*`, `÷` to `/`, `+` to `+`, `−` to `-`). -/
inductive Op where
  | add | sub | mul | div
deriving DecidableEq

def fracAdd (a b : Frac) : Frac := ⟨a.n * b.d + b.n * a.d, a.d * b.d⟩

def fracSub (a b : Frac) : Frac := ⟨a.n * b.d - b.n * a.d, a.d * b.d⟩

def fracMul (a b : Frac) : Frac := ⟨a.n * b.n, a.d * b.d⟩

/-- Division `a / b` for `b` with nonzero numerator. -/
def fracDiv (a b : Frac) : Frac :=
  if b.n < 0 then ⟨-(a.n * b.d), a.d * b.n.natAbs⟩ else ⟨a.n * b.d, a.d * b.n.natAbs⟩

/-- Multiply by a power of ten (used for the exponent part of numeric literals). -/
def fracMulPow10 (q : Frac) (k : Int) : Frac :=
  if 0 ≤ k then ⟨q.n * (10 : Int) ^ k.toNat, q.d⟩ else ⟨q.n, q.d * 10 ^ (-k).toNat⟩

/-- Decimal digit characters. -/
def isDig (c : Char) : Bool := decide (48 ≤ c.toNat) && decide (c.toNat ≤ 57)

/-- Characters other than an exponent marker (`e`/`E`). -/
def notExpChar (c : Char) : Bool := !(c == 'e' || c == 'E')

/-- Characters other than a decimal point. -/
def notDotChar (c : Char) : Bool := !(c == '.')

/-- `List.span` written out structurally so the kernel and `simp` unfold it cleanly. -/
def spanP (p : Char → Bool) : List Char → List Char × List Char
  | [] => ([], [])
  | c :: cs => if p c then ((c :: (spanP p cs).1), (spanP p cs).2) else ([], c :: cs)

/-- Value of a digit string, most significant digit first. -/
def digitsToNat (cs : List Char) : Nat :=
  cs.foldl (fun a c => 10 * a + (c.toNat - 48)) 0

/-- Strip a leading sign character, reporting whether it was a minus. -/
def splitSign (cs : List Char) : Bool × List Char :=
  match cs with
  | [] => (false, [])
  | c :: r => if c = '-' then (true, r) else if c = '+' then (false, r) else (false, cs)

/-- Parse the exponent part of a numeric literal: an optional sign and a nonempty
digit string. -/
def parseExpInt (cs : List Char) : Option Int :=
  let p := splitSign cs
  if p.2 ≠ [] ∧ p.2.all isDig then
    some (if p.1 then -(digitsToNat p.2 : Int) else (digitsToNat p.2 : Int))
  else none

/-- Parse an unsigned decimal numeric literal `digits [. digits] [e [sign] digits]`
(either side of the point may be empty, but not both).  Returns `none` on anything
else; in particular a string with a sign character, a second point, or a malformed
exponent is rejected, exactly as ECMAScript string-to-number conversion does. -/
def parseUnsigned (cs : List Char) : Option Frac :=
  let ms := spanP notExpChar cs
  let ipf := spanP notDotChar ms.1
  let fp := ipf.2.drop 1
  if ipf.1.all isDig ∧ fp.all isDig ∧ ¬(ipf.1 = [] ∧ fp = []) then
    let base : Frac := ⟨(digitsToNat (ipf.1 ++ fp) : Int), 10 ^ fp.length⟩
    match ms.2 with
    | [] => some base
    | _ :: t =>
      match parseExpInt t with
      | none => none
      | some k => some (fracMulPow10 base k)
  else none

/-- ECMAScript string-to-number conversion (`Number(s)`), restricted to the decimal and
`Infinity` forms.  Hex, octal and binary literals and interior whitespace, which can
never occur in the calculator state, are not modelled. -/
def jsToNumber (s : String) : JSNum :=
  match s.data with
  | [] => .fin ⟨0, 1⟩
  | cs =>
    let p := splitSign cs
    if p.2 = "Infinity".data then (if p.1 then .neginf else .inf)
    else
      match parseUnsigned p.2 with
      | none => .nan
      | some q => .fin (if p.1 then ⟨-q.n, q.d⟩ else q)

/-- `compute(a, b, op)` from the source: NaN if either operand is non-finite, `null`
(`none`) on division by exactly zero, otherwise the exact arithmetic result. -/
def compute (a b : JSNum) (o : Op) : Option JSNum :=
  match a, b with
  | .fin qa, .fin qb =>
    match o with
    | .add => some (.fin (fracAdd qa qb))
    | .sub => some (.fin (fracSub qa qb))
    | .mul => some (.fin (fracMul qa qb))
    | .div => if qb.n = 0 then none else some (.fin (fracDiv qa qb))
  | _, _ => some .nan

/-- Digit characters of a natural number, least significant first (fueled). -/
def digitsRev : Nat → Nat → List Char
  | 0, _ => []
  | f + 1, m => if m = 0 then [] else Char.ofNat (48 + m % 10) :: digitsRev f (m / 10)

/-- Decimal digit characters of a natural number, most significant first. -/
def natToDigits (m : Nat) : List Char :=
  if m = 0 then ['0'] else (digitsRev (m + 1) m).reverse

/-- Number of decimal digits. -/
def natLen (m : Nat) : Nat := (natToDigits m).length

/-- Drop leading zeros of a reversed digit string, keeping at least one digit. -/
def stripZerosRev : List Char → List Char
  | [] => []
  | c :: r => if c = '0' then (if r = [] then ['0'] else stripZerosRev r) else c :: r

def zeros (k : Nat) : List Char := List.replicate k '0'

/-- Fueled Euclidean algorithm (any fuel of at least the step count computes the gcd;
only used inside number formatting, no arithmetic facts about it are needed). -/
def gcdF : Nat → Nat → Nat → Nat
  | 0, _, b => b
  | f + 1, a, b => if a = 0 then b else gcdF f (b % a) a

/-- Multiplicity of `p` in `m` (fueled). -/
def multOf (p : Nat) : Nat → Nat → Nat
  | 0, _ => 0
  | f + 1, m => if m % p = 0 ∧ m ≠ 0 ∧ 1 < p then multOf p f (m / p) + 1 else 0

/-- Remove all factors `p` from `m` (fueled). -/
def stripFac (p : Nat) : Nat → Nat → Nat
  | 0, m => m
  | f + 1, m => if m % p = 0 ∧ m ≠ 0 ∧ 1 < p then stripFac p f (m / p) else m

/-- Round a positive rational to `p` significant digits, half away from zero (the
rounding ECMAScript prescribes for `toPrecision`/`toExponential`).  Returns the decimal
exponent `e` (so the value is `D * 10 ^ (e - p + 1)`) and the digit block `D`. -/
def sigRound (q : Frac) (p : Nat) : Int × Nat :=
  let m := q.n.natAbs
  let e0 : Int := (natLen m : Int) - natLen q.d
  let ge : Bool :=
    if 0 ≤ e0 then decide (10 ^ e0.toNat * q.d ≤ m) else decide (q.d ≤ m * 10 ^ (-e0).toNat)
  let e : Int := if ge then e0 else e0 - 1
  let shift : Int := (p : Int) - 1 - e
  let nm : Nat × Nat :=
    if 0 ≤ shift then (m * 10 ^ shift.toNat, q.d) else (m, q.d * 10 ^ (-shift).toNat)
  let d0 := (2 * nm.1 + nm.2) / (2 * nm.2)
  if 10 ^ p ≤ d0 then (e + 1, 10 ^ (p - 1)) else (e, d0)

/-- The unsigned part of the ECMAScript `Number::toString(10)` digit layout: given the
shortest digit block `s` and the position `n` of the decimal point (value =
`s * 10 ^ (n - s.length)`), produce the decimal or exponential rendering. -/
def formatCore (s : List Char) (n : Int) : List Char :=
  let kd : Int := (s.length : Int)
  if kd ≤ n ∧ n ≤ 21 then s ++ zeros (n - kd).toNat
  else if 0 < n ∧ n ≤ 21 then s.take n.toNat ++ '.' :: s.drop n.toNat
  else if -6 < n ∧ n ≤ 0 then '0' :: '.' :: (zeros (-n).toNat ++ s)
  else
    let e := n - 1
    let mant := if s.length = 1 then s else s.take 1 ++ '.' :: s.drop 1
    mant ++ 'e' :: (if e < 0 then '-' else '+') :: natToDigits e.natAbs

/-- ECMAScript `Number::toString(10)` digit layout with the sign attached. -/
def formatDecimal (neg : Bool) (s : List Char) (n : Int) : String :=
  ⟨if neg then '-' :: formatCore s n else formatCore s n⟩

/-- ECMAScript `String(x)` for a JavaScript number: the shortest exact decimal
rendering for finite values (for a rational without a finite decimal expansion, which
an actual double never is, the 17-significant-digit rounding is used, matching the
precision at which doubles print). -/
def numToString : JSNum → String
  | .nan => "NaN"
  | .inf => "Infinity"
  | .neginf => "-Infinity"
  | .fin q =>
    if q.n = 0 then "0"
    else
      let m := q.n.natAbs
      let g := gcdF (m + 1) m q.d
      let m' := m / g
      let d' := q.d / g
      if stripFac 5 (d' + 1) (stripFac 2 (d' + 1) d') = 1 then
        let k := max (multOf 2 (d' + 1) d') (multOf 5 (d' + 1) d')
        let D := m' * 10 ^ k / d'
        let s0 := natToDigits D
        let s1 := (stripZerosRev s0.reverse).reverse
        formatDecimal (q.n < 0) s1 ((s0.length : Int) - k)
      else
        let ed := sigRound q 17
        let s0 := natToDigits ed.2
        let s1 := (stripZerosRev s0.reverse).reverse
        formatDecimal (q.n < 0) s1 (ed.1 + 1)

/-- The unsigned part of `Number.prototype.toExponential(f)`. -/
def expCore (q : Frac) (f : Nat) : List Char :=
  let ed := sigRound q (f + 1)
  let s := natToDigits ed.2
  let mant := if f = 0 then s else s.take 1 ++ '.' :: s.drop 1
  mant ++ 'e' :: (if ed.1 < 0 then '-' else '+') :: natToDigits ed.1.natAbs

/-- ECMAScript `Number.prototype.toExponential(f)` for a finite nonzero value. -/
def toExponentialStr (q : Frac) (f : Nat) : String :=
  ⟨if q.n < 0 then '-' :: expCore q f else expCore q f⟩

/-- The unsigned part of `Number.prototype.toPrecision(p)` for a nonzero value. -/
def precCore (q : Frac) (p : Nat) : List Char :=
  let ed := sigRound q p
  let e := ed.1
  let s := natToDigits ed.2
  if e < -6 ∨ (p : Int) ≤ e then
    let mant := if p = 1 then s else s.take 1 ++ '.' :: s.drop 1
    mant ++ 'e' :: (if e < 0 then '-' else '+') :: natToDigits e.natAbs
  else if e = (p : Int) - 1 then s
  else if 0 ≤ e then s.take (e.toNat + 1) ++ '.' :: s.drop (e.toNat + 1)
  else '0' :: '.' :: (zeros (-(e + 1)).toNat ++ s)

/-- ECMAScript `Number.prototype.toPrecision(p)` for a finite value. -/
def toPrecisionStr (q : Frac) (p : Nat) : String :=
  if q.n = 0 then ⟨'0' :: '.' :: zeros (p - 1)⟩
  else ⟨if q.n < 0 then '-' :: precCore q p else precCore q p⟩

/-- `roundForDisplay(n)` from the source: outside the band `[1e-12, 1e12]` go through
`toExponential(12)`, otherwise through `toPrecision(12)`, in both cases reading the
string back with `Number`. -/
def roundForDisplay (x : JSNum) : JSNum :=
  match x with
  | .fin q =>
    if (10 : Int) ^ 12 * q.d < q.n.natAbs then jsToNumber (toExponentialStr q 12)
    else if q.n ≠ 0 ∧ (q.n.natAbs * 10 ^ 12 : Int) < q.d then
      jsToNumber (toExponentialStr q 12)
    else jsToNumber (toPrecisionStr q 12)
  | x => x

/-- `MAX_DIGITS` from the source. -/
def MAX_DIGITS : Nat := 15

/-- The engine state: exactly the four module-level variables of the source. -/
structure CalcState where
  currentInput : String
  accumulator : Option JSNum
  pendingOp : Option Op
  lastPressedEquals : Bool
deriving DecidableEq

/-- The initial state (`'0'`, `null`, `null`, `false`). -/
def initState : CalcState := ⟨"0", none, none, false⟩

/-- Membership test for the decimal point, as `currentInput.includes('.')` uses. -/
def hasDot (s : String) : Bool := s.data.any (fun x => x == '.')

/-- `currentInput.replace('.', '').length`: the length after removing the first
decimal point. -/
def jsReplaceDotLen (s : String) : Nat :=
  s.data.length - (if hasDot s then 1 else 0)

/-- Number of digit characters of a string (excluding any sign, decimal point and
exponent marker). -/
def digitCharCount (s : String) : Nat := (s.data.filter isDig).length

/-- The state effect of `updateDisplay()`: when the stored string is longer than
`MAX_DIGITS` and does not re-derive a finite number, `currentInput` is forced to the
`ERROR` sentinel; otherwise the state is untouched (the truncated text is
presentation only). -/
def updateDisplay (s : CalcState) : CalcState :=
  if s.currentInput = "ERROR" then s
  else if MAX_DIGITS < s.currentInput.length ∧ ¬(isFinite (jsToNumber s.currentInput) = true) then
    { s with currentInput := "ERROR" }
  else s

/-- The text `updateDisplay()` writes to the display element. -/
def displayText (s : CalcState) : String :=
  if s.currentInput = "ERROR" then "Error"
  else if s.currentInput.length ≤ MAX_DIGITS then s.currentInput
  else
    match jsToNumber s.currentInput with
    | .fin q => numToString (jsToNumber (toPrecisionStr q MAX_DIGITS))
    | _ => "Error"

/-- `inputDigit(d)` from the source, for `d` a digit character or `'.'`. -/
def inputDigit (c : Char) (s : CalcState) : CalcState :=
  if s.currentInput = "ERROR" then s
  else
    let s :=
      if s.lastPressedEquals then
        { s with currentInput := "0", lastPressedEquals := false,
                 accumulator := none, pendingOp := none }
      else s
    if c = '.' then
      if hasDot s.currentInput then s
      else { s with currentInput := ⟨s.currentInput.data ++ ['.']⟩ }
    else
      if s.currentInput = "0" then { s with currentInput := ⟨[c]⟩ }
      else if MAX_DIGITS ≤ jsReplaceDotLen s.currentInput then s
      else { s with currentInput := ⟨s.currentInput.data ++ [c]⟩ }

/-- `clearAll()` from the source. -/
def clearAll (_ : CalcState) : CalcState :=
  { currentInput := "0", accumulator := none, pendingOp := none, lastPressedEquals := false }

/-- `toggleNegate()` from the source: string-level sign toggling. -/
def toggleNegate (s : CalcState) : CalcState :=
  if s.currentInput = "ERROR" then s
  else if s.currentInput = "0" then s
  else
    match s.currentInput.data with
    | '-' :: t => { s with currentInput := ⟨t⟩ }
    | cs => { s with currentInput := ⟨'-' :: cs⟩ }

/-- `percent()` from the source: divide the parsed value by 100 and re-stringify;
on a non-finite parse, set the sentinel (leaving accumulator and pendingOp alone). -/
def percent (s : CalcState) : CalcState :=
  if s.currentInput = "ERROR" then s
  else
    match jsToNumber s.currentInput with
    | .fin q => { s with currentInput := numToString (.fin ⟨q.n, q.d * 100⟩) }
    | _ => { s with currentInput := "ERROR" }

/-- `pressOperator(op)` from the source (after `opMap` normalization). -/
def pressOperator (o : Op) (s : CalcState) : CalcState :=
  if s.currentInput = "ERROR" then s
  else
    let iv := jsToNumber s.currentInput
    match s.accumulator with
    | none =>
      { s with accumulator := some iv, pendingOp := some o,
               currentInput := "0", lastPressedEquals := false }
    | some a =>
      if !s.lastPressedEquals || s.pendingOp.isSome then
        match compute a iv (s.pendingOp.getD o) with
        | none => { s with currentInput := "ERROR", accumulator := none, pendingOp := none }
        | some r =>
          { s with accumulator := some r, pendingOp := some o,
                   currentInput := "0", lastPressedEquals := false }
      else
        { s with pendingOp := some o, currentInput := "0", lastPressedEquals := false }

/-- `pressEquals()` from the source. -/
def pressEquals (s : CalcState) : CalcState :=
  if s.currentInput = "ERROR" then s
  else
    match s.pendingOp with
    | none => { s with lastPressedEquals := true }
    | some o =>
      match compute (s.accumulator.getD (.fin ⟨0, 1⟩)) (jsToNumber s.currentInput) o with
      | none => { s with currentInput := "ERROR", accumulator := none, pendingOp := none }
      | some r =>
        if isFinite r then
          { s with currentInput := numToString (roundForDisplay r),
                   accumulator := none, pendingOp := none, lastPressedEquals := true }
        else { s with currentInput := "ERROR", accumulator := none, pendingOp := none }

/-- The keydown Backspace handler from the source (note: no `ERROR` guard). -/
def backspaceKey (s : CalcState) : CalcState :=
  if s.lastPressedEquals then clearAll s
  else if s.currentInput.length ≤ 1 then { s with currentInput := "0" }
  else { s with currentInput := ⟨s.currentInput.data.dropLast⟩ }

/-- The normalized command alphabet of the engine. -/
inductive Cmd where
  | digit (d : Fin 10)
  | dot
  | oper (o : Op)
  | equals
  | clear
  | negate
  | percentCmd
  | backspace
deriving DecidableEq

/-- The character a digit command types. -/
def digitChar (d : Fin 10) : Char := Char.ofNat (48 + d.val)

/-- One full command: the engine mutation followed by the `updateDisplay()` call that
every button and key handler performs. -/
def step (c : Cmd) (s : CalcState) : CalcState :=
  updateDisplay
    (match c with
     | .digit d => inputDigit (digitChar d) s
     | .dot => inputDigit '.' s
     | .oper o => pressOperator o s
     | .equals => pressEquals s
     | .clear => clearAll s
     | .negate => toggleNegate s
     | .percentCmd => percent s
     | .backspace => backspaceKey s)

/-- Run a command sequence from a state. -/
def run (l : List Cmd) (s : CalcState) : CalcState :=
  l.foldl (fun s c => step c s) s

/-- Whether a string contains an exponent marker. -/
def hasExp (s : String) : Bool := s.data.any (fun c => c == 'e' || c == 'E')

/-- The accumulator and the pending operator are either both present or both absent. -/
def accPendSync (s : CalcState) : Prop := s.accumulator = none ↔ s.pendingOp = none

/-- Whether a string avoids a leading `+` (no reachable calculator string has one). -/
def headOk (s : String) : Bool :=
  match s.data with
  | [] => true
  | c :: _ => !(c == '+')

/-- Well-formedness of the input buffer: either the ERROR sentinel, or a nonempty
string without a leading plus that parses to a finite number, where exponential
notation can only be present right after an equals evaluation
(`lastPressedEquals = true`). -/
def goodInput (s : CalcState) : Prop :=
  s.currentInput = "ERROR" ∨
  (s.currentInput.data ≠ [] ∧ headOk s.currentInput = true ∧
   isFinite (jsToNumber s.currentInput) = true ∧
   (hasExp s.currentInput = true → s.lastPressedEquals = true))

/-! ### Character class facts -/

theorem isDig_bounds {c : Char} (h : isDig c = true) : 48 ≤ c.toNat ∧ c.toNat ≤ 57 := by
  simp only [isDig, Bool.and_eq_true, decide_eq_true_eq] at h
  exact h

theorem isDig_facts {c : Char} (h : isDig c = true) :
    notExpChar c = true ∧ notDotChar c = true ∧ c ≠ '-' ∧ c ≠ '+' ∧ c ≠ 'I' := by
  have he : c ≠ 'e' := by intro hc; subst hc; exact absurd h (by decide)
  have hE : c ≠ 'E' := by intro hc; subst hc; exact absurd h (by decide)
  have hd : c ≠ '.' := by intro hc; subst hc; exact absurd h (by decide)
  refine ⟨?_, ?_, ?_, ?_, ?_⟩
  · simp [notExpChar, beq_eq_false_iff_ne.mpr he, beq_eq_false_iff_ne.mpr hE]
  · simp [notDotChar, beq_eq_false_iff_ne.mpr hd]
  · intro hc; subst hc; exact absurd h (by decide)
  · intro hc; subst hc; exact absurd h (by decide)
  · intro hc; subst hc; exact absurd h (by decide)

theorem all_notExpChar_of_all_isDig {l : List Char} (h : l.all isDig = true) :
    l.all notExpChar = true := by
  rw [List.all_eq_true] at h ⊢
  exact fun c hc => (isDig_facts (h c hc)).1

theorem all_notDotChar_of_all_isDig {l : List Char} (h : l.all isDig = true) :
    l.all notDotChar = true := by
  rw [List.all_eq_true] at h ⊢
  exact fun c hc => (isDig_facts (h c hc)).2.1

/-! ### spanP facts -/

theorem spanP_all {p : Char → Bool} {l : List Char} (h : l.all p = true) :
    spanP p l = (l, []) := by
  induction l with
  | nil => rfl
  | cons c cs ih =>
    rw [List.all_cons, Bool.and_eq_true] at h
    simp [spanP, h.1, ih h.2]

theorem spanP_append_stop {p : Char → Bool} {l1 : List Char} (c : Char) (l2 : List Char)
    (h1 : l1.all p = true) (h2 : p c = false) :
    spanP p (l1 ++ c :: l2) = (l1, c :: l2) := by
  induction l1 with
  | nil => simp [spanP, h2]
  | cons a l ih =>
    rw [List.all_cons, Bool.and_eq_true] at h1
    simp [spanP, h1.1, ih h1.2]

theorem spanP_join (p : Char → Bool) (l : List Char) :
    (spanP p l).1 ++ (spanP p l).2 = l := by
  induction l with
  | nil => rfl
  | cons c cs ih =>
    by_cases h : p c = true
    · simp [spanP, h, ih]
    · rw [Bool.not_eq_true] at h
      simp [spanP, h]

theorem spanP_fst_all (p : Char → Bool) (l : List Char) :
    (spanP p l).1.all p = true := by
  induction l with
  | nil => rfl
  | cons c cs ih =>
    by_cases h : p c = true
    · simp [spanP, h, ih]
    · rw [Bool.not_eq_true] at h
      simp [spanP, h]

theorem spanP_snd_head {p : Char → Bool} {l c t} (h : (spanP p l).2 = c :: t) :
    p c = false := by
  induction l with
  | nil => simp [spanP] at h
  | cons a cs ih =>
    by_cases ha : p a = true
    · simp [spanP, ha] at h
      exact ih h
    · rw [Bool.not_eq_true] at ha
      simp [spanP, ha] at h
      obtain ⟨h1, _⟩ := h
      rwa [h1] at ha

/-! ### Digit string sources -/

theorem digitsRev_all (f m : Nat) : (digitsRev f m).all isDig = true := by
  induction f generalizing m with
  | zero => rfl
  | succ f ih =>
    rw [digitsRev]
    by_cases h : m = 0
    · simp [h]
    · have hlt : m % 10 < 10 := Nat.mod_lt _ (by omega)
      simp only [h, if_false, List.all_cons, Bool.and_eq_true]
      refine ⟨?_, ih _⟩
      interval_cases hr : m % 10 <;> decide

theorem natToDigits_all (m : Nat) : (natToDigits m).all isDig = true := by
  rw [natToDigits]
  by_cases h : m = 0
  · subst h; decide
  · simp only [h, if_false, List.all_reverse]
    exact digitsRev_all _ _

theorem natToDigits_ne_nil (m : Nat) : natToDigits m ≠ [] := by
  rw [natToDigits]
  by_cases h : m = 0
  · simp [h]
  · simp only [h, if_false, ne_eq, List.reverse_eq_nil_iff]
    rw [digitsRev]
    simp [h]

theorem stripZerosRev_all {l : List Char} (h : l.all isDig = true) :
    (stripZerosRev l).all isDig = true := by
  induction l with
  | nil => rfl
  | cons c cs ih =>
    rw [List.all_cons, Bool.and_eq_true] at h
    rw [stripZerosRev]
    by_cases hc : c = '0'
    · by_cases hr : cs = []
      · simp only [hc, if_true, hr, if_true]
        decide
      · simp only [hc, if_true, hr, if_false]
        exact ih h.2
    · simp only [hc, if_false, List.all_cons, Bool.and_eq_true]
      exact ⟨h.1, h.2⟩

theorem stripZerosRev_ne_nil {l : List Char} (h : l ≠ []) : stripZerosRev l ≠ [] := by
  induction l with
  | nil => exact absurd rfl h
  | cons c cs ih =>
    rw [stripZerosRev]
    by_cases hc : c = '0'
    · by_cases hr : cs = []
      · simp [hc, hr]
      · simp only [hc, if_true, hr, if_false]
        exact ih hr
    · simp [hc]

theorem zeros_all (k : Nat) : (zeros k).all isDig = true := by
  rw [List.all_eq_true]
  intro c hc
  simp only [zeros] at hc
  rw [List.eq_of_mem_replicate hc]
  decide

/-! ### Parsing of well-formed numeral strings -/

theorem strData_mk (l : List Char) : (String.mk l).data = l := rfl

theorem parseUnsigned_digits {l : List Char} (h1 : l.all isDig = true) (h2 : l ≠ []) :
    (parseUnsigned l).isSome = true := by
  simp only [parseUnsigned, spanP_all (all_notExpChar_of_all_isDig h1),
    spanP_all (all_notDotChar_of_all_isDig h1)]
  simp [h1, h2]

theorem parseUnsigned_with_dot {l1 l2 : List Char} (h1 : l1.all isDig = true)
    (h2 : l2.all isDig = true) (h3 : l1 ≠ [] ∨ l2 ≠ []) :
    (parseUnsigned (l1 ++ '.' :: l2)).isSome = true := by
  have hall : (l1 ++ '.' :: l2).all notExpChar = true := by
    rw [List.all_append, List.all_cons]
    simp [all_notExpChar_of_all_isDig h1, all_notExpChar_of_all_isDig h2,
      (by decide : notExpChar '.' = true)]
  have hdot : spanP notDotChar (l1 ++ '.' :: l2) = (l1, '.' :: l2) :=
    spanP_append_stop '.' l2 (all_notDotChar_of_all_isDig h1) (by decide)
  simp only [parseUnsigned, spanP_all hall, hdot]
  rcases h3 with h3 | h3 <;> simp [h1, h2, h3]

theorem parseExpInt_sign_digits {c : Char} {ds : List Char} (hc : c = '-' ∨ c = '+')
    (h1 : ds ≠ []) (h2 : ds.all isDig = true) : (parseExpInt (c :: ds)).isSome = true := by
  rcases hc with rfl | rfl <;> simp [parseExpInt, splitSign, h1, h2]

theorem parseUnsigned_append_exp {m t : List Char} (hm : m.all notExpChar = true)
    (hsome : (parseUnsigned m).isSome = true) (ht : (parseExpInt t).isSome = true) :
    (parseUnsigned (m ++ 'e' :: t)).isSome = true := by
  have hspan : spanP notExpChar (m ++ 'e' :: t) = (m, 'e' :: t) :=
    spanP_append_stop 'e' t hm (by decide)
  simp only [parseUnsigned, spanP_all hm] at hsome
  simp only [parseUnsigned, hspan]
  split at hsome
  case isTrue hcond =>
    rw [Option.isSome_iff_exists] at ht
    obtain ⟨k, hk⟩ := ht
    rw [if_pos hcond, hk]
    rfl
  case isFalse hcond => simp at hsome

theorem parseUnsigned_shape {l : List Char} (hne : l.all notExpChar = true)
    (hs : (parseUnsigned l).isSome = true) :
    ∃ ip fpD, l = ip ++ fpD ∧ ip.all isDig = true ∧
      (fpD.drop 1).all isDig = true ∧ (ip ≠ [] ∨ fpD.drop 1 ≠ []) ∧
      (fpD = [] ∨ ∃ fp, fpD = '.' :: fp) := by
  simp only [parseUnsigned, spanP_all hne] at hs
  split at hs
  case isFalse hcond => simp at hs
  case isTrue hcond =>
    refine ⟨(spanP notDotChar l).1, (spanP notDotChar l).2, (spanP_join _ _).symm,
      hcond.1, hcond.2.1, ?_, ?_⟩
    · by_cases h1 : (spanP notDotChar l).1 = []
      · right
        intro h2
        exact hcond.2.2 ⟨h1, h2⟩
      · left; exact h1
    · rcases hfpd : (spanP notDotChar l).2 with _ | ⟨c, t⟩
      · exact Or.inl rfl
      · right
        have hc := spanP_snd_head hfpd
        simp only [notDotChar, Bool.not_eq_false', beq_iff_eq] at hc
        exact ⟨t, by rw [hc]⟩

theorem parseUnsigned_append_digit {l : List Char} {c : Char}
    (hne : l.all notExpChar = true) (hs : (parseUnsigned l).isSome = true)
    (hc : isDig c = true) :
    (parseUnsigned (l ++ [c])).isSome = true := by
  obtain ⟨ip, fpD, rfl, hip, hfp, hnonempty, hshape⟩ := parseUnsigned_shape hne hs
  rcases hshape with rfl | ⟨fp, rfl⟩
  · have hipne : ip ≠ [] := by
      rcases hnonempty with h | h
      · exact h
      · simp at h
    have hgoal : (parseUnsigned (ip ++ [c])).isSome = true :=
      parseUnsigned_digits (by rw [List.all_append]; simp [hip, hc]) (by simp [hipne])
    simpa using hgoal
  · have hfp' : fp.all isDig = true := by simpa using hfp
    have hgoal : (parseUnsigned (ip ++ '.' :: (fp ++ [c]))).isSome = true := by
      refine parseUnsigned_with_dot hip ?_ (Or.inr (by simp))
      rw [List.all_append]
      simp [hfp', hc]
    simpa [List.append_assoc] using hgoal

theorem parseUnsigned_append_dot {l : List Char}
    (hne : l.all notExpChar = true) (hnd : '.' ∉ l)
    (hs : (parseUnsigned l).isSome = true) :
    (parseUnsigned (l ++ ['.'])).isSome = true := by
  obtain ⟨ip, fpD, rfl, hip, hfp, hnonempty, hshape⟩ := parseUnsigned_shape hne hs
  rcases hshape with rfl | ⟨fp, rfl⟩
  · have hipne : ip ≠ [] := by
      rcases hnonempty with h | h
      · exact h
      · simp at h
    have hgoal : (parseUnsigned (ip ++ '.' :: ([] : List Char))).isSome = true :=
      parseUnsigned_with_dot hip (by simp) (Or.inl hipne)
    simpa using hgoal
  · exact absurd (by simp : '.' ∈ ip ++ '.' :: fp) hnd

theorem parseUnsigned_sign_head {c : Char} (hc : c = '-' ∨ c = '+') (r : List Char) :
    parseUnsigned (c :: r) = none := by
  have hne : notExpChar c = true := by rcases hc with rfl | rfl <;> decide
  have hnd : notDotChar c = true := by rcases hc with rfl | rfl <;> decide
  have hdig : isDig c = false := by rcases hc with rfl | rfl <;> decide
  simp only [parseUnsigned]
  rw [show spanP notExpChar (c :: r) =
      (c :: (spanP notExpChar r).1, (spanP notExpChar r).2) by simp [spanP, hne]]
  rw [show spanP notDotChar (c :: (spanP notExpChar r).1) =
      (c :: (spanP notDotChar ((spanP notExpChar r).1)).1,
       (spanP notDotChar ((spanP notExpChar r).1)).2) by simp [spanP, hnd]]
  simp [hdig]

theorem parseUnsigned_nil : parseUnsigned [] = none := by decide

theorem parseUnsigned_head_not_sign {l : List Char} (hs : (parseUnsigned l).isSome = true) :
    l.head? ≠ some '-' ∧ l.head? ≠ some '+' ∧ l ≠ [] := by
  rcases l with _ | ⟨c, t⟩
  · rw [parseUnsigned_nil] at hs
    simp at hs
  · refine ⟨?_, ?_, by simp⟩
    · intro h
      simp only [List.head?_cons, Option.some_inj] at h
      rw [h, parseUnsigned_sign_head (Or.inl rfl)] at hs
      simp at hs
    · intro h
      simp only [List.head?_cons, Option.some_inj] at h
      rw [h, parseUnsigned_sign_head (Or.inr rfl)] at hs
      simp at hs

theorem splitSign_no_sign {l : List Char} (h1 : l.head? ≠ some '-')
    (h2 : l.head? ≠ some '+') : splitSign l = (false, l) := by
  rcases l with _ | ⟨c, t⟩
  · rfl
  · simp only [List.head?_cons, ne_eq, Option.some_inj] at h1 h2
    simp [splitSign, h1, h2]

theorem jsToNumber_of_core {core : List Char} (h : (parseUnsigned core).isSome = true) :
    isFinite (jsToNumber ⟨core⟩) = true ∧ isFinite (jsToNumber ⟨'-' :: core⟩) = true := by
  obtain ⟨hm, hp, hne⟩ := parseUnsigned_head_not_sign h
  have hsplit : splitSign core = (false, core) := splitSign_no_sign hm hp
  have hinf : core ≠ "Infinity".data := by
    intro heq
    rw [heq] at h
    exact absurd h (by decide)
  rw [Option.isSome_iff_exists] at h
  obtain ⟨q, hq⟩ := h
  constructor
  · rcases core with _ | ⟨c, t⟩
    · exact absurd rfl hne
    · rw [show jsToNumber ⟨c :: t⟩ =
          (let p := splitSign (c :: t)
           if p.2 = "Infinity".data then (if p.1 then JSNum.neginf else JSNum.inf)
           else
             match parseUnsigned p.2 with
             | none => JSNum.nan
             | some q => JSNum.fin (if p.1 then ⟨-q.n, q.d⟩ else q)) from rfl]
      simp only [hsplit]
      rw [if_neg hinf, hq]
      simp [isFinite]
  · rw [show jsToNumber ⟨'-' :: core⟩ =
        (let p := splitSign ('-' :: core)
         if p.2 = "Infinity".data then (if p.1 then JSNum.neginf else JSNum.inf)
         else
           match parseUnsigned p.2 with
           | none => JSNum.nan
           | some q => JSNum.fin (if p.1 then ⟨-q.n, q.d⟩ else q)) from rfl]
    rw [show splitSign ('-' :: core) = (true, core) by simp [splitSign]]
    simp only []
    rw [if_neg hinf, hq]
    simp [isFinite]

/-! ### Parsing the formatter outputs -/

theorem all_take {p : Char → Bool} {l : List Char} (h : l.all p = true) (k : Nat) :
    (l.take k).all p = true := by
  rw [List.all_eq_true] at h ⊢
  exact fun c hc => h c (List.take_subset k l hc)

theorem all_drop {p : Char → Bool} {l : List Char} (h : l.all p = true) (k : Nat) :
    (l.drop k).all p = true := by
  rw [List.all_eq_true] at h ⊢
  exact fun c hc => h c (List.drop_subset k l hc)

theorem take_succ_ne_nil {l : List Char} (h : l ≠ []) (k : Nat) : l.take (k + 1) ≠ [] := by
  rcases l with _ | ⟨c, t⟩
  · exact absurd rfl h
  · simp [List.take_cons]

theorem mantB_facts {s : List Char} (h1 : s ≠ []) (h2 : s.all isDig = true) :
    (parseUnsigned (s.take 1 ++ '.' :: s.drop 1)).isSome = true ∧
    (s.take 1 ++ '.' :: s.drop 1).all notExpChar = true := by
  constructor
  · exact parseUnsigned_with_dot (all_take h2 1) (all_drop h2 1)
      (Or.inl (take_succ_ne_nil h1 0))
  · rw [List.all_append, List.all_cons]
    simp only [all_notExpChar_of_all_isDig (all_take h2 1),
      (by decide : notExpChar '.' = true), Bool.and_eq_true, List.all_eq_true, true_and]
    intro x hx
    exact (isDig_facts (List.all_eq_true.mp h2 x (List.drop_subset 1 s hx))).1

theorem exp_shape_parses {s : List Char} {e : Int} (h1 : s ≠ []) (h2 : s.all isDig = true)
    (b : Prop) [Decidable b] :
    (parseUnsigned ((if b then s else s.take 1 ++ '.' :: s.drop 1) ++
      'e' :: (if e < 0 then '-' else '+') :: natToDigits e.natAbs)).isSome = true := by
  have ht : (parseExpInt ((if e < 0 then '-' else '+') :: natToDigits e.natAbs)).isSome
      = true := by
    by_cases he : e < 0
    · rw [if_pos he]
      exact parseExpInt_sign_digits (Or.inl rfl) (natToDigits_ne_nil _) (natToDigits_all _)
    · rw [if_neg he]
      exact parseExpInt_sign_digits (Or.inr rfl) (natToDigits_ne_nil _) (natToDigits_all _)
  by_cases hb : b
  · rw [if_pos hb]
    exact parseUnsigned_append_exp (all_notExpChar_of_all_isDig h2)
      (parseUnsigned_digits h2 h1) ht
  · rw [if_neg hb]
    obtain ⟨hsome, hne⟩ := mantB_facts h1 h2
    exact parseUnsigned_append_exp hne hsome ht

theorem formatCore_parses {s : List Char} {n : Int} (h1 : s ≠ [])
    (h2 : s.all isDig = true) : (parseUnsigned (formatCore s n)).isSome = true := by
  simp only [formatCore]
  by_cases hb1 : (s.length : Int) ≤ n ∧ n ≤ 21
  · rw [if_pos hb1]
    exact parseUnsigned_digits (by rw [List.all_append]; simp [h2, zeros_all]) (by simp [h1])
  · rw [if_neg hb1]
    by_cases hb2 : 0 < n ∧ n ≤ 21
    · rw [if_pos hb2]
      refine parseUnsigned_with_dot (all_take h2 _) (all_drop h2 _) (Or.inr ?_)
      have hlt : n.toNat < s.length := by omega
      simp only [ne_eq, List.drop_eq_nil_iff]
      omega
    · rw [if_neg hb2]
      by_cases hb3 : -6 < n ∧ n ≤ 0
      · rw [if_pos hb3]
        have hsh : ('0' :: '.' :: (zeros (-n).toNat ++ s)) =
            ['0'] ++ '.' :: (zeros (-n).toNat ++ s) := rfl
        rw [hsh]
        exact parseUnsigned_with_dot (by decide)
          (by rw [List.all_append]; simp [zeros_all, h2]) (Or.inl (by simp))
      · rw [if_neg hb3]
        exact exp_shape_parses h1 h2 (s.length = 1)

theorem headOk_of_head {l : List Char} (h : l.head? ≠ some '+') : headOk ⟨l⟩ = true := by
  rcases l with _ | ⟨c, t⟩
  · rfl
  · simp only [List.head?_cons, ne_eq, Option.some_inj] at h
    simp [headOk, h]

theorem str_facts_of_core {core : List Char} (h : (parseUnsigned core).isSome = true) :
    (isFinite (jsToNumber ⟨core⟩) = true ∧ (⟨core⟩ : String).data ≠ [] ∧
      headOk (⟨core⟩ : String) = true) ∧
    (isFinite (jsToNumber ⟨'-' :: core⟩) = true ∧ (⟨'-' :: core⟩ : String).data ≠ [] ∧
      headOk (⟨'-' :: core⟩ : String) = true) := by
  obtain ⟨hm, hp, hne⟩ := parseUnsigned_head_not_sign h
  have hj := jsToNumber_of_core h
  exact ⟨⟨hj.1, hne, headOk_of_head hp⟩,
    ⟨hj.2, by simp, headOk_of_head (by simp)⟩⟩

theorem formatDecimal_str_facts (neg : Bool) {s : List Char} {n : Int} (h1 : s ≠ [])
    (h2 : s.all isDig = true) :
    isFinite (jsToNumber (formatDecimal neg s n)) = true ∧
    (formatDecimal neg s n).data ≠ [] ∧ headOk (formatDecimal neg s n) = true := by
  have hcore := @formatCore_parses s n h1 h2
  have hfacts := str_facts_of_core hcore
  cases neg
  · simpa [formatDecimal] using hfacts.1
  · simpa [formatDecimal] using hfacts.2

theorem expCore_parses (q : Frac) (f : Nat) : (parseUnsigned (expCore q f)).isSome = true := by
  simp only [expCore]
  exact exp_shape_parses (natToDigits_ne_nil _) (natToDigits_all _) (f = 0)

theorem toExponentialStr_str_facts (q : Frac) (f : Nat) :
    isFinite (jsToNumber (toExponentialStr q f)) = true ∧
    (toExponentialStr q f).data ≠ [] ∧ headOk (toExponentialStr q f) = true := by
  have hfacts := str_facts_of_core (expCore_parses q f)
  by_cases hneg : q.n < 0
  · simpa [toExponentialStr, hneg] using hfacts.2
  · simpa [toExponentialStr, hneg] using hfacts.1

theorem precCore_parses (q : Frac) (p : Nat) :
    (parseUnsigned (precCore q p)).isSome = true := by
  simp only [precCore]
  set e := (sigRound q p).1 with he
  have h1 : natToDigits (sigRound q p).2 ≠ [] := natToDigits_ne_nil _
  have h2 : (natToDigits (sigRound q p).2).all isDig = true := natToDigits_all _
  by_cases hb1 : e < -6 ∨ (p : Int) ≤ e
  · rw [if_pos hb1]
    exact exp_shape_parses h1 h2 (p = 1)
  · rw [if_neg hb1]
    by_cases hb2 : e = (p : Int) - 1
    · rw [if_pos hb2]
      exact parseUnsigned_digits h2 h1
    · rw [if_neg hb2]
      by_cases hb3 : 0 ≤ e
      · rw [if_pos hb3]
        exact parseUnsigned_with_dot (all_take h2 _) (all_drop h2 _)
          (Or.inl (take_succ_ne_nil h1 _))
      · rw [if_neg hb3]
        have hsh : ('0' :: '.' :: (zeros (-(e + 1)).toNat ++ natToDigits (sigRound q p).2)) =
            ['0'] ++ '.' :: (zeros (-(e + 1)).toNat ++ natToDigits (sigRound q p).2) := rfl
        rw [hsh]
        exact parseUnsigned_with_dot (by decide)
          (by rw [List.all_append]; simp [zeros_all, h2]) (Or.inl (by simp))

theorem toPrecisionStr_str_facts (q : Frac) (p : Nat) :
    isFinite (jsToNumber (toPrecisionStr q p)) = true ∧
    (toPrecisionStr q p).data ≠ [] ∧ headOk (toPrecisionStr q p) = true := by
  rw [toPrecisionStr]
  by_cases h0 : q.n = 0
  · rw [if_pos h0]
    have hz : ('0' :: '.' :: zeros (p - 1)) = ['0'] ++ '.' :: zeros (p - 1) := rfl
    have hsome : (parseUnsigned ('0' :: '.' :: zeros (p - 1))).isSome = true := by
      rw [hz]
      exact parseUnsigned_with_dot (by decide) (zeros_all _) (Or.inl (by simp))
    exact (str_facts_of_core hsome).1
  · rw [if_neg h0]
    have hfacts := str_facts_of_core (precCore_parses q p)
    by_cases hneg : q.n < 0
    · simpa [hneg] using hfacts.2
    · simpa [hneg] using hfacts.1

theorem stripped_digits_facts (X : Nat) :
    (stripZerosRev (natToDigits X).reverse).reverse ≠ [] ∧
    ((stripZerosRev (natToDigits X).reverse).reverse).all isDig = true := by
  constructor
  · simp only [ne_eq, List.reverse_eq_nil_iff]
    exact stripZerosRev_ne_nil (by simp [natToDigits_ne_nil])
  · rw [List.all_reverse]
    exact stripZerosRev_all (by rw [List.all_reverse]; exact natToDigits_all X)

theorem numToString_fin_facts (q : Frac) :
    isFinite (jsToNumber (numToString (.fin q))) = true ∧
    (numToString (.fin q)).data ≠ [] ∧ headOk (numToString (.fin q)) = true := by
  simp only [numToString]
  by_cases h0 : q.n = 0
  · rw [if_pos h0]
    exact ⟨by decide, by decide, by decide⟩
  · rw [if_neg h0]
    split
    · exact formatDecimal_str_facts _ (stripped_digits_facts _).1 (stripped_digits_facts _).2
    · exact formatDecimal_str_facts _ (stripped_digits_facts _).1 (stripped_digits_facts _).2

theorem numToString_fin_ne_ERROR (q : Frac) : numToString (.fin q) ≠ "ERROR" := by
  intro h
  have hfin := (numToString_fin_facts q).1
  rw [h] at hfin
  exact absurd hfin (by decide)

theorem isFinite_exists_fin {x : JSNum} (h : isFinite x = true) : ∃ q, x = .fin q := by
  cases x with
  | fin q => exact ⟨q, rfl⟩
  | nan => exact absurd h (by decide)
  | inf => exact absurd h (by decide)
  | neginf => exact absurd h (by decide)

theorem roundForDisplay_fin (q : Frac) : isFinite (roundForDisplay (.fin q)) = true := by
  simp only [roundForDisplay]
  split
  · exact (toExponentialStr_str_facts q 12).1
  · split
    · exact (toExponentialStr_str_facts q 12).1
    · exact (toPrecisionStr_str_facts q 12).1

/-! ### Editing well-formed numeral strings -/

theorem isExpChar_false_of_notExpChar {c : Char} (h : notExpChar c = true) :
    (c == 'e' || c == 'E') = false := by
  simp only [notExpChar, Bool.not_eq_true'] at h
  exact h

theorem any_eq_false_iff {p : Char → Bool} {l : List Char} :
    l.any p = false ↔ ∀ x ∈ l, p x = false := by
  rw [List.any_eq_false]
  simp only [Bool.not_eq_true]

theorem all_notExpChar_of_hasExp_false {l : List Char}
    (h : l.any (fun c => c == 'e' || c == 'E') = false) : l.all notExpChar = true := by
  rw [any_eq_false_iff] at h
  rw [List.all_eq_true]
  intro c hc
  simp [notExpChar, h c hc]

theorem jsToNumber_decomp {s : String} (hfin : isFinite (jsToNumber s) = true)
    (hne : s.data ≠ []) (hhead : headOk s = true) :
    ∃ (neg : Bool) (rest : List Char), s.data = (if neg then '-' :: rest else rest) ∧
      (parseUnsigned rest).isSome = true := by
  rcases hdata : s.data with _ | ⟨c, t⟩
  · exact absurd hdata hne
  · have hs : s = ⟨c :: t⟩ := String.ext (by rw [hdata])
    subst hs
    rw [show jsToNumber ⟨c :: t⟩ =
        (let p := splitSign (c :: t)
         if p.2 = "Infinity".data then (if p.1 then JSNum.neginf else JSNum.inf)
         else
           match parseUnsigned p.2 with
           | none => JSNum.nan
           | some q => JSNum.fin (if p.1 then ⟨-q.n, q.d⟩ else q)) from rfl] at hfin
    by_cases hc1 : c = '-'
    · subst hc1
      rw [show splitSign ('-' :: t) = (true, t) by simp [splitSign]] at hfin
      refine ⟨true, t, by simp, ?_⟩
      by_cases hinf : t = "Infinity".data
      · simp only [hinf, if_pos rfl] at hfin
        simp [isFinite] at hfin
      · simp only [if_neg hinf] at hfin
        rcases hp : parseUnsigned t with _ | q
        · rw [hp] at hfin
          simp [isFinite] at hfin
        · simp [hp]
    · have hc2 : c ≠ '+' := by
        intro hc2
        subst hc2
        simp [headOk] at hhead
      rw [show splitSign (c :: t) = (false, c :: t) by simp [splitSign, hc1, hc2]] at hfin
      refine ⟨false, c :: t, by simp, ?_⟩
      by_cases hinf : (c :: t) = "Infinity".data
      · simp only [hinf, if_pos rfl] at hfin
        simp [isFinite] at hfin
      · simp only [if_neg hinf] at hfin
        rcases hp : parseUnsigned (c :: t) with _ | q
        · rw [hp] at hfin
          simp [isFinite] at hfin
        · simp [hp]

theorem jsToNumber_recomp {rest : List Char} (neg : Bool)
    (hsome : (parseUnsigned rest).isSome = true) :
    isFinite (jsToNumber ⟨if neg then '-' :: rest else rest⟩) = true := by
  cases neg
  · simpa using (jsToNumber_of_core hsome).1
  · simpa using (jsToNumber_of_core hsome).2

theorem append_char_invariant {s : String} {c : Char}
    (hfin : isFinite (jsToNumber s) = true) (hne : s.data ≠ [])
    (hhead : headOk s = true) (hexp : hasExp s = false)
    (hc : isDig c = true ∨ (c = '.' ∧ hasDot s = false)) :
    isFinite (jsToNumber ⟨s.data ++ [c]⟩) = true ∧ (s.data ++ [c]) ≠ [] ∧
    headOk (⟨s.data ++ [c]⟩ : String) = true ∧ hasExp (⟨s.data ++ [c]⟩ : String) = false := by
  obtain ⟨neg, rest, hdecomp, hsome⟩ := jsToNumber_decomp hfin hne hhead
  have hrsub : rest ⊆ s.data := by
    rw [hdecomp]
    cases neg <;> simp
  have hexp' : ∀ x ∈ s.data, (x == 'e' || x == 'E') = false :=
    any_eq_false_iff.mp (show s.data.any (fun x => x == 'e' || x == 'E') = false from hexp)
  have hrne : rest.all notExpChar = true :=
    all_notExpChar_of_hasExp_false (any_eq_false_iff.mpr fun x hx => hexp' x (hrsub hx))
  have hcne : (c == 'e' || c == 'E') = false := by
    rcases hc with hc | ⟨rfl, _⟩
    · exact isExpChar_false_of_notExpChar (isDig_facts hc).1
    · decide
  have hsome' : (parseUnsigned (rest ++ [c])).isSome = true := by
    rcases hc with hc | ⟨rfl, hdot⟩
    · exact parseUnsigned_append_digit hrne hsome hc
    · refine parseUnsigned_append_dot hrne ?_ hsome
      intro hmem
      have hdot' : ∀ x ∈ s.data, (x == '.') = false :=
        any_eq_false_iff.mp (show s.data.any (fun x => x == '.') = false from hdot)
      have := hdot' '.' (hrsub hmem)
      exact absurd this (by decide)
  have hdata : s.data ++ [c] = (if neg then '-' :: (rest ++ [c]) else (rest ++ [c])) := by
    rw [hdecomp]
    cases neg <;> simp
  rw [hdata]
  refine ⟨jsToNumber_recomp neg hsome', ?_, ?_, ?_⟩
  · cases neg <;> simp
  · cases neg
    · exact headOk_of_head (parseUnsigned_head_not_sign hsome').2.1
    · exact headOk_of_head (by simp)
  · show ((if neg = true then '-' :: (rest ++ [c]) else (rest ++ [c])).any
      (fun x => x == 'e' || x == 'E')) = false
    rw [any_eq_false_iff]
    intro x hx
    have hx' : x = '-' ∨ x ∈ rest ∨ x = c := by
      cases neg <;> simp at hx <;> tauto
    rcases hx' with rfl | hx' | rfl
    · decide
    · exact hexp' x (hrsub hx')
    · exact hcne

theorem negate_prepend_invariant {s : String}
    (hfin : isFinite (jsToNumber s) = true) (hne : s.data ≠ [])
    (hhead : headOk s = true) (hnm : s.data.head? ≠ some '-') :
    isFinite (jsToNumber ⟨'-' :: s.data⟩) = true ∧
    headOk (⟨'-' :: s.data⟩ : String) = true ∧
    (hasExp s = false → hasExp (⟨'-' :: s.data⟩ : String) = false) := by
  obtain ⟨neg, rest, hdecomp, hsome⟩ := jsToNumber_decomp hfin hne hhead
  have hneg : neg = false := by
    cases neg
    · rfl
    · rw [if_pos rfl] at hdecomp
      rw [hdecomp] at hnm
      simp at hnm
  rw [hneg, if_neg (by simp)] at hdecomp
  refine ⟨?_, headOk_of_head (by simp), ?_⟩
  · rw [hdecomp]
    simpa using (jsToNumber_of_core hsome).2
  · intro hexp
    have hexp' : ∀ x ∈ s.data, (x == 'e' || x == 'E') = false :=
      any_eq_false_iff.mp (show s.data.any (fun x => x == 'e' || x == 'E') = false from hexp)
    show (('-' :: s.data).any (fun x => x == 'e' || x == 'E')) = false
    rw [any_eq_false_iff]
    intro x hx
    rcases List.mem_cons.mp hx with rfl | hx
    · decide
    · exact hexp' x hx

theorem negate_drop_invariant {s : String} {t : List Char}
    (hfin : isFinite (jsToNumber s) = true) (hdata : s.data = '-' :: t) :
    isFinite (jsToNumber ⟨t⟩) = true ∧ t ≠ [] ∧ headOk (⟨t⟩ : String) = true ∧
    (hasExp s = false → hasExp (⟨t⟩ : String) = false) := by
  have hs : s = ⟨'-' :: t⟩ := String.ext (by rw [hdata])
  subst hs
  obtain ⟨neg, rest, hdecomp, hsome⟩ :=
    jsToNumber_decomp hfin (by simp) (by simp [headOk])
  have hrest : rest = t := by
    cases neg
    · rw [if_neg (by simp)] at hdecomp
      simp only [strData_mk] at hdecomp
      rw [← hdecomp] at hsome
      rw [parseUnsigned_sign_head (Or.inl rfl)] at hsome
      exact absurd hsome (by decide)
    · rw [if_pos rfl] at hdecomp
      simp only [strData_mk, List.cons.injEq] at hdecomp
      exact hdecomp.2.symm
  subst hrest
  obtain ⟨hm, hp, hne'⟩ := parseUnsigned_head_not_sign hsome
  refine ⟨by simpa using (jsToNumber_of_core hsome).1, hne', headOk_of_head hp, ?_⟩
  intro hexp
  have hexp' : ∀ x ∈ ('-' :: rest), (x == 'e' || x == 'E') = false :=
    any_eq_false_iff.mp
      (show (('-' :: rest).any (fun x => x == 'e' || x == 'E')) = false from hexp)
  show ((rest).any (fun x => x == 'e' || x == 'E')) = false
  rw [any_eq_false_iff]
  intro x hx
  exact hexp' x (List.mem_cons_of_mem _ hx)

/-! ### Claim theorems -/

/-- C1: Starting from the initial state, the command sequence digit(5), operator(+),
digit(3), operator(×), digit(2), equals leaves CurrentInput displaying 16, not 11:
the × press folds the pending 5+3 to 8 immediately, with no operator precedence. -/
theorem chain_five_plus_three_times_two_is_sixteen :
    (run [.digit 5, .oper .add, .digit 3, .oper .mul, .digit 2, .equals]
        initState).currentInput = "16" ∧
    displayText
      (run [.digit 5, .oper .add, .digit 3, .oper .mul, .digit 2, .equals] initState)
      = "16" ∧
    (run [.digit 5, .oper .add, .digit 3, .oper .mul] initState).accumulator
      = some (.fin ⟨8, 1⟩) ∧
    (run [.digit 5, .oper .add, .digit 3, .oper .mul, .digit 2, .equals]
        initState).currentInput ≠ "11" := by
  decide

/-- C7 counterexample: with a non-finite first operand, `compute` with divisor exactly
zero returns NaN (the non-finiteness guard on the first line fires before the
divide-by-zero check), not the divide-by-zero signal `null`. -/
theorem compute_div_zero_nonfinite_cex :
    compute JSNum.inf (JSNum.fin ⟨0, 1⟩) Op.div = some JSNum.nan ∧
    compute JSNum.inf (JSNum.fin ⟨0, 1⟩) Op.div ≠ none := by
  decide

/-- C7 (amended): for every finite value a (including a = 0), `compute(a, b, divide)`
with b exactly zero yields the divide-by-zero signal `null` rather than a numeric
result; for non-finite a the NaN-propagation rule takes precedence instead. -/
theorem compute_div_by_zero_finite (a b : Frac) (h : b.n = 0) :
    compute (JSNum.fin a) (JSNum.fin b) Op.div = none := by
  simp [compute, h]

theorem compute_div_by_zero_finite_witness :
    compute (JSNum.fin ⟨0, 1⟩) (JSNum.fin ⟨0, 1⟩) Op.div = none :=
  compute_div_by_zero_finite ⟨0, 1⟩ ⟨0, 1⟩ rfl

/-- C9: when the display string is longer than MAX_DIGITS and not the sentinel,
render-time truncation in updateDisplay leaves Accumulator, PendingOperator and
LastPressedEquals untouched; the whole state is unchanged when the re-derived number
is finite, and CurrentInput is mutated (to the ERROR sentinel) exactly in the
non-finite case. -/
theorem updateDisplay_frame (s : CalcState) (h1 : s.currentInput ≠ "ERROR")
    (h2 : MAX_DIGITS < s.currentInput.length) :
    (updateDisplay s).accumulator = s.accumulator ∧
    (updateDisplay s).pendingOp = s.pendingOp ∧
    (updateDisplay s).lastPressedEquals = s.lastPressedEquals ∧
    (isFinite (jsToNumber s.currentInput) = true → updateDisplay s = s) ∧
    (isFinite (jsToNumber s.currentInput) = false →
      updateDisplay s = { s with currentInput := "ERROR" }) := by
  simp only [updateDisplay, if_neg h1]
  by_cases hf : isFinite (jsToNumber s.currentInput) = true
  · rw [if_neg (by simp [hf])]
    simp [hf]
  · rw [if_pos ⟨h2, hf⟩]
    simp_all

theorem updateDisplay_frame_witness :
    updateDisplay ⟨"1234567890123456", none, none, false⟩ =
      ⟨"1234567890123456", none, none, false⟩ :=
  (updateDisplay_frame ⟨"1234567890123456", none, none, false⟩ (by decide)
    (by decide)).2.2.2.1 (by decide)

/-- C2 counterexample: from the reachable Error state after 5 ÷ 0 =, the backspace
command does not leave the engine state unchanged: the keydown Backspace handler has
no ERROR guard and slices the sentinel to "ERRO". -/
theorem error_state_backspace_cex :
    (run [.digit 5, .oper .div, .digit 0, .equals] initState).currentInput = "ERROR" ∧
    step .backspace (run [.digit 5, .oper .div, .digit 0, .equals] initState) ≠
      run [.digit 5, .oper .div, .digit 0, .equals] initState ∧
    (step .backspace
        (run [.digit 5, .oper .div, .digit 0, .equals] initState)).currentInput
      = "ERRO" := by
  decide

/-- C2 (amended): the Error state is absorbing for every command other than clear and
backspace: in any state whose CurrentInput is the ERROR sentinel, digit, decimalPoint,
operator, equals, negate and percent leave the entire engine state unchanged; backspace,
however, mutates CurrentInput (it slices the sentinel). -/
theorem error_absorbing_except_backspace (s : CalcState) (h : s.currentInput = "ERROR") :
    (∀ d : Fin 10, step (.digit d) s = s) ∧ step .dot s = s ∧
    (∀ o : Op, step (.oper o) s = s) ∧ step .equals s = s ∧
    step .negate s = s ∧ step .percentCmd s = s := by
  have hupd : updateDisplay s = s := by simp [updateDisplay, h]
  refine ⟨fun d => ?_, ?_, fun o => ?_, ?_, ?_, ?_⟩ <;>
    simp [step, inputDigit, pressOperator, pressEquals, toggleNegate, percent, h, hupd]

theorem error_absorbing_except_backspace_witness :
    step .equals (run [.digit 5, .oper .div, .digit 0, .equals] initState) =
      run [.digit 5, .oper .div, .digit 0, .equals] initState :=
  (error_absorbing_except_backspace _ (by decide)).2.2.2.1

/-- C6 counterexample: a reachable Error state with Accumulator and PendingOperator
still set: after 5, +, 3, negate, backspace the current input is the non-numeric
string "-", and percent then sets the ERROR sentinel without clearing the
accumulator (still 5) or the pending operator (still +). -/
theorem percent_error_keeps_acc_cex :
    (run [.digit 5, .oper .add, .digit 3, .negate, .backspace, .percentCmd]
        initState).currentInput = "ERROR" ∧
    (run [.digit 5, .oper .add, .digit 3, .negate, .backspace, .percentCmd]
        initState).accumulator = some (.fin ⟨5, 1⟩) ∧
    (run [.digit 5, .oper .add, .digit 3, .negate, .backspace, .percentCmd]
        initState).pendingOp = some .add := by
  decide

/-- C6 (amended): the transitions into the Error state performed by operator presses
and equals evaluations do clear Accumulator and PendingOperator; but the percent
command (and render-time forcing) sets the sentinel without clearing them, so the
claimed invariant fails on reachable states. -/
theorem operator_equals_error_transitions_clear (s : CalcState)
    (h : s.currentInput ≠ "ERROR") :
    (∀ o : Op, (pressOperator o s).currentInput = "ERROR" →
      (pressOperator o s).accumulator = none ∧ (pressOperator o s).pendingOp = none) ∧
    ((pressEquals s).currentInput = "ERROR" →
      (pressEquals s).accumulator = none ∧ (pressEquals s).pendingOp = none) := by
  constructor
  · intro o
    simp only [pressOperator, if_neg h]
    rcases hacc : s.accumulator with _ | a
    · intro hci
      simp at hci
    · dsimp only
      by_cases hb : (!s.lastPressedEquals || s.pendingOp.isSome) = true
      · rw [if_pos hb]
        rcases hcomp : compute a (jsToNumber s.currentInput) (s.pendingOp.getD o)
            with _ | r
        · intro _
          exact ⟨rfl, rfl⟩
        · intro hci
          simp at hci
      · rw [if_neg hb]
        intro hci
        simp at hci
  · simp only [pressEquals, if_neg h]
    rcases hp : s.pendingOp with _ | o
    · dsimp only
      intro hci
      exact absurd hci h
    · dsimp only
      rcases hcomp : compute (s.accumulator.getD (.fin ⟨0, 1⟩))
          (jsToNumber s.currentInput) o with _ | r
      · dsimp only
        intro _
        exact ⟨rfl, rfl⟩
      · dsimp only
        by_cases hf : isFinite r = true
        · rw [if_pos hf]
          intro hci
          obtain ⟨q, rfl⟩ := isFinite_exists_fin hf
          obtain ⟨q', hq'⟩ := isFinite_exists_fin (roundForDisplay_fin q)
          rw [hq'] at hci
          exact absurd hci (numToString_fin_ne_ERROR q')
        · rw [if_neg hf]
          intro _
          exact ⟨rfl, rfl⟩

theorem operator_equals_error_transitions_clear_witness :
    (pressOperator Op.add ⟨"0", some (.fin ⟨5, 1⟩), some .div, false⟩).accumulator
      = none ∧
    (pressOperator Op.add ⟨"0", some (.fin ⟨5, 1⟩), some .div, false⟩).pendingOp
      = none :=
  (operator_equals_error_transitions_clear _ (by decide)).1 Op.add (by decide)

/-- C3 counterexample: a fold during an operator press can produce a non-finite result
(NaN) without any transition to the Error state in that command: after 5, negate,
backspace the input is "-" (NaN); pressing + seeds the accumulator with NaN, and the
next + press folds compute(NaN, 3, +) = NaN and simply stores it. -/
theorem operator_fold_nonfinite_no_error_cex :
    compute ((run [.digit 5, .negate, .backspace, .oper .add, .digit 3]
        initState).accumulator.getD (.fin ⟨0, 1⟩))
      (jsToNumber (run [.digit 5, .negate, .backspace, .oper .add, .digit 3]
        initState).currentInput)
      ((run [.digit 5, .negate, .backspace, .oper .add, .digit 3]
        initState).pendingOp.getD .add) = some JSNum.nan ∧
    isFinite JSNum.nan = false ∧
    (run [.digit 5, .negate, .backspace, .oper .add, .digit 3, .oper .add]
        initState).currentInput ≠ "ERROR" ∧
    (run [.digit 5, .negate, .backspace, .oper .add, .digit 3, .oper .add]
        initState).accumulator = some JSNum.nan := by
  decide

/-- C3 (amended): an equals evaluation whose result is non-finite (or the
divide-by-zero signal) transitions to the Error state with Accumulator and
PendingOperator cleared in that same command; an operator-press fold, however, only
errors on the divide-by-zero signal and stores any non-finite numeric result in the
accumulator without entering the Error state. -/
theorem nonfinite_checked_only_at_equals :
    (∀ s : CalcState, s.currentInput ≠ "ERROR" → ∀ o : Op, s.pendingOp = some o →
      ∀ r : JSNum,
        compute (s.accumulator.getD (.fin ⟨0, 1⟩)) (jsToNumber s.currentInput) o
          = some r →
        isFinite r = false →
        pressEquals s = { s with currentInput := "ERROR", accumulator := none,
                                 pendingOp := none }) ∧
    (∀ (s : CalcState) (o : Op) (a r : JSNum), s.currentInput ≠ "ERROR" →
      s.accumulator = some a → (!s.lastPressedEquals || s.pendingOp.isSome) = true →
      compute a (jsToNumber s.currentInput) (s.pendingOp.getD o) = some r →
      pressOperator o s = { s with accumulator := some r, pendingOp := some o,
                                   currentInput := "0", lastPressedEquals := false }) := by
  constructor
  · intro s h o hp r hcomp hf
    simp only [pressEquals, if_neg h, hp, hcomp]
    rw [if_neg (by rw [hf]; simp)]
  · intro s o a r h hacc hb hcomp
    simp only [pressOperator, if_neg h, hacc]
    rw [if_pos hb, hcomp]

theorem nonfinite_checked_only_at_equals_witness :
    pressEquals ⟨"0", some JSNum.nan, some Op.add, false⟩ =
      ⟨"ERROR", none, none, false⟩ ∧
    pressOperator Op.mul ⟨"0", some JSNum.nan, some Op.add, false⟩ =
      ⟨"0", some JSNum.nan, some Op.mul, false⟩ := by
  constructor
  · have h := nonfinite_checked_only_at_equals.1
      ⟨"0", some JSNum.nan, some Op.add, false⟩ (by decide) Op.add rfl JSNum.nan
      (by decide) (by decide)
    simpa using h
  · have h := nonfinite_checked_only_at_equals.2
      ⟨"0", some JSNum.nan, some Op.add, false⟩ Op.mul JSNum.nan JSNum.nan (by decide)
      rfl (by decide) (by decide)
    simpa using h

/-- C5 counterexample: a reachable state whose CurrentInput has 16 digit characters
(more than MAX_DIGITS = 15): typing 1.23456789012 and pressing percent twice
re-stringifies the value to "0.000123456789012". -/
theorem percent_digit_count_cex :
    (run [.digit 1, .dot, .digit 2, .digit 3, .digit 4, .digit 5, .digit 6, .digit 7,
          .digit 8, .digit 9, .digit 0, .digit 1, .digit 2, .percentCmd, .percentCmd]
        initState).currentInput = "0.000123456789012" ∧
    digitCharCount
      (run [.digit 1, .dot, .digit 2, .digit 3, .digit 4, .digit 5, .digit 6, .digit 7,
            .digit 8, .digit 9, .digit 0, .digit 1, .digit 2, .percentCmd, .percentCmd]
          initState).currentInput = 16 ∧
    MAX_DIGITS <
      digitCharCount
        (run [.digit 1, .dot, .digit 2, .digit 3, .digit 4, .digit 5, .digit 6,
              .digit 7, .digit 8, .digit 9, .digit 0, .digit 1, .digit 2, .percentCmd,
              .percentCmd] initState).currentInput := by
  decide

theorem updateDisplay_ci (t : CalcState) :
    (updateDisplay t).currentInput = t.currentInput ∨
    (updateDisplay t).currentInput = "ERROR" := by
  simp only [updateDisplay]
  split
  · exact Or.inl rfl
  · split
    · exact Or.inr rfl
    · exact Or.inl rfl

theorem updateDisplay_fields (t : CalcState) :
    (updateDisplay t).accumulator = t.accumulator ∧
    (updateDisplay t).pendingOp = t.pendingOp ∧
    (updateDisplay t).lastPressedEquals = t.lastPressedEquals := by
  simp only [updateDisplay]
  split
  · exact ⟨rfl, rfl, rfl⟩
  · split
    · exact ⟨rfl, rfl, rfl⟩
    · exact ⟨rfl, rfl, rfl⟩

theorem hasDot_mk_append_dot (s : String) :
    hasDot ⟨s.data ++ ['.']⟩ = true := by
  show ((s.data ++ ['.']).any (fun x => x == '.')) = true
  rw [List.any_append]
  simp

theorem jsReplaceDotLen_append_dot {s : String} (_h : hasDot s = false) :
    jsReplaceDotLen ⟨s.data ++ ['.']⟩ = s.data.length := by
  simp only [jsReplaceDotLen, strData_mk, List.length_append]
  rw [if_pos (hasDot_mk_append_dot s)]
  simp

theorem jsReplaceDotLen_append_nondot {s : String} {c : Char} (h : (c == '.') = false) :
    jsReplaceDotLen ⟨s.data ++ [c]⟩ = jsReplaceDotLen s + 1 := by
  simp only [jsReplaceDotLen, strData_mk, List.length_append]
  have hd : hasDot ⟨s.data ++ [c]⟩ = hasDot s := by
    show ((s.data ++ [c]).any (fun x => x == '.')) = s.data.any (fun x => x == '.')
    rw [List.any_append]
    simp [h]
  rw [hd]
  by_cases hds : hasDot s = true
  · rw [if_pos hds]
    have hne : s.data ≠ [] := by
      intro hnil
      rw [show hasDot s = s.data.any (fun x => x == '.') from rfl, hnil] at hds
      simp at hds
    have hlen : 1 ≤ s.data.length := List.length_pos.mpr hne
    simp only [List.length_singleton]
    omega
  · rw [if_neg hds]
    simp only [List.length_singleton]
    omega

theorem jsReplaceDotLen_le_length (s : String) : jsReplaceDotLen s ≤ s.data.length := by
  simp only [jsReplaceDotLen]
  split <;> omega

theorem inputDigit_jsReplaceDotLen (c : Char) (s : CalcState)
    (h : jsReplaceDotLen s.currentInput ≤ MAX_DIGITS)
    (hc : isDig c = true ∨ c = '.') :
    jsReplaceDotLen ((inputDigit c s).currentInput) ≤ MAX_DIGITS := by
  simp only [inputDigit]
  by_cases herr : s.currentInput = "ERROR"
  · rw [if_pos herr]
    exact h
  · rw [if_neg herr]
    by_cases hlpe : s.lastPressedEquals = true
    · rw [if_pos hlpe]
      by_cases hcd : c = '.'
      · rw [if_pos hcd]
        rw [if_neg (by decide)]
        decide
      · rw [if_neg hcd]
        rw [if_pos rfl]
        calc jsReplaceDotLen ⟨[c]⟩ ≤ (⟨[c]⟩ : String).data.length :=
              jsReplaceDotLen_le_length _
          _ ≤ MAX_DIGITS := by
              simp only [strData_mk, List.length_singleton, MAX_DIGITS]
              omega
    · rw [if_neg hlpe]
      by_cases hcd : c = '.'
      · rw [if_pos hcd]
        by_cases hdot : hasDot s.currentInput = true
        · rw [if_pos hdot]
          exact h
        · have hdot' : hasDot s.currentInput = false := by simpa using hdot
          rw [if_neg hdot]
          subst hcd
          rw [jsReplaceDotLen_append_dot hdot']
          have heq : jsReplaceDotLen s.currentInput = s.currentInput.data.length := by
            simp only [jsReplaceDotLen, hdot']
            simp
          rw [← heq]
          exact h
      · rw [if_neg hcd]
        by_cases h0 : s.currentInput = "0"
        · rw [if_pos h0]
          calc jsReplaceDotLen ⟨[c]⟩ ≤ (⟨[c]⟩ : String).data.length :=
                jsReplaceDotLen_le_length _
            _ ≤ MAX_DIGITS := by
                simp only [strData_mk, List.length_singleton, MAX_DIGITS]
                omega
        · rw [if_neg h0]
          by_cases hbound : MAX_DIGITS ≤ jsReplaceDotLen s.currentInput
          · rw [if_pos hbound]
            exact h
          · rw [if_neg hbound]
            have hcb : (c == '.') = false := by
              rcases hc with hdig | hdig
              · have hnd := (isDig_facts hdig).2.1
                simpa only [notDotChar, Bool.not_eq_true'] using hnd
              · exact absurd hdig hcd
            rw [jsReplaceDotLen_append_nondot hcb]
            omega

/-- C5 (amended): the digit-count bound, measured as the code measures it
(`currentInput.replace('.', '').length`), is preserved by the digit and decimalPoint
commands (inputDigit enforces it); but the re-stringification performed by percent
and equals does not maintain it, and a reachable CurrentInput can have 16 digit
characters. -/
theorem digit_commands_respect_digit_bound (s : CalcState)
    (h : jsReplaceDotLen s.currentInput ≤ MAX_DIGITS) :
    (∀ d : Fin 10, jsReplaceDotLen ((step (.digit d) s).currentInput) ≤ MAX_DIGITS) ∧
    jsReplaceDotLen ((step .dot s).currentInput) ≤ MAX_DIGITS := by
  have hupd : ∀ t : CalcState, jsReplaceDotLen t.currentInput ≤ MAX_DIGITS →
      jsReplaceDotLen ((updateDisplay t).currentInput) ≤ MAX_DIGITS := by
    intro t ht
    rcases updateDisplay_ci t with hci | hci
    · rw [hci]
      exact ht
    · rw [hci]
      decide
  have hdig : ∀ d : Fin 10, isDig (digitChar d) = true := by decide
  constructor
  · intro d
    exact hupd _ (inputDigit_jsReplaceDotLen _ s h (Or.inl (hdig d)))
  · exact hupd _ (inputDigit_jsReplaceDotLen _ s h (Or.inr rfl))

theorem digit_commands_respect_digit_bound_witness :
    jsReplaceDotLen ((step (.digit 3) initState).currentInput) ≤ MAX_DIGITS :=
  (digit_commands_respect_digit_bound initState (by decide)).1 3

theorem updateDisplay_id_of_ne {t : CalcState}
    (h : (updateDisplay t).currentInput ≠ "ERROR") : updateDisplay t = t := by
  by_cases herr : t.currentInput = "ERROR"
  · simp only [updateDisplay, if_pos herr]
  · by_cases hcond : MAX_DIGITS < t.currentInput.length ∧
        ¬(isFinite (jsToNumber t.currentInput) = true)
    · exfalso
      apply h
      simp only [updateDisplay, if_neg herr, if_pos hcond]
    · simp only [updateDisplay, if_neg herr, if_neg hcond]

/-- C8: after any equals press that does not end in the Error state, pressing equals
again any number of times leaves the engine state (and hence the display) unchanged:
with no pending operator left, pressEquals only re-arms LastPressedEquals. -/
theorem repeated_equals_fixpoint (s0 : CalcState) (h0 : s0.currentInput ≠ "ERROR")
    (h1 : (step .equals s0).currentInput ≠ "ERROR") :
    ∀ n : Nat, (step Cmd.equals)^[n] (step .equals s0) = step .equals s0 ∧
      displayText ((step Cmd.equals)^[n] (step .equals s0)) =
        displayText (step .equals s0) := by
  suffices hst : ∀ n : Nat, (step Cmd.equals)^[n] (step .equals s0) = step .equals s0 by
    intro n
    exact ⟨hst n, by rw [hst n]⟩
  have hupd : updateDisplay (pressEquals s0) = pressEquals s0 :=
    updateDisplay_id_of_ne h1
  have hs1 : step .equals s0 = pressEquals s0 := hupd
  have hciS : (pressEquals s0).currentInput ≠ "ERROR" := by
    rw [← hs1]
    exact h1
  have hdesc : (s0.pendingOp = none ∧ pressEquals s0 = { s0 with lastPressedEquals := true }) ∨
      (pressEquals s0).currentInput = "ERROR" ∨
      ∃ ci', pressEquals s0 = ⟨ci', none, none, true⟩ := by
    simp only [pressEquals, if_neg h0]
    rcases hp : s0.pendingOp with _ | o
    · dsimp only
      exact Or.inl ⟨rfl, rfl⟩
    · dsimp only
      rcases hcomp : compute (s0.accumulator.getD (.fin ⟨0, 1⟩))
          (jsToNumber s0.currentInput) o with _ | r
      · dsimp only
        exact Or.inr (Or.inl rfl)
      · dsimp only
        by_cases hf : isFinite r = true
        · rw [if_pos hf]
          exact Or.inr (Or.inr ⟨_, rfl⟩)
        · rw [if_neg hf]
          exact Or.inr (Or.inl rfl)
  have hfix : step .equals (step .equals s0) = step .equals s0 := by
    rcases hdesc with ⟨hp, hdesc⟩ | hdesc | ⟨ci', hdesc⟩
    · have hci1 : ({ s0 with lastPressedEquals := true } : CalcState).currentInput
          ≠ "ERROR" := h0
      have hpe1 : pressEquals { s0 with lastPressedEquals := true } =
          { s0 with lastPressedEquals := true } := by
        simp only [pressEquals, if_neg hci1, hp]
      rw [hs1, hdesc]
      show updateDisplay (pressEquals { s0 with lastPressedEquals := true }) =
        { s0 with lastPressedEquals := true }
      rw [hpe1, ← hdesc, hupd, hdesc]
    · exact absurd hdesc hciS
    · have hci1 : (⟨ci', none, none, true⟩ : CalcState).currentInput ≠ "ERROR" := by
        rw [hdesc] at hciS
        exact hciS
      have hpe1 : pressEquals ⟨ci', none, none, true⟩ = ⟨ci', none, none, true⟩ := by
        simp only [pressEquals, if_neg hci1]
      rw [hs1, hdesc]
      show updateDisplay (pressEquals ⟨ci', none, none, true⟩) = ⟨ci', none, none, true⟩
      rw [hpe1, ← hdesc, hupd, hdesc]
  intro n
  induction n with
  | zero => rfl
  | succ k ih => rw [Function.iterate_succ_apply, hfix, ih]

theorem repeated_equals_fixpoint_witness :
    (step Cmd.equals)^[3] (step .equals (run [.digit 5, .oper .add, .digit 3] initState))
      = step .equals (run [.digit 5, .oper .add, .digit 3] initState) :=
  (repeated_equals_fixpoint _ (by decide) (by decide) 3).1

theorem inputDigit_accPend (c : Char) (s : CalcState) (h : accPendSync s) :
    accPendSync (inputDigit c s) := by
  simp only [inputDigit]
  by_cases herr : s.currentInput = "ERROR"
  · rw [if_pos herr]
    exact h
  · rw [if_neg herr]
    by_cases hlpe : s.lastPressedEquals = true
    · rw [if_pos hlpe]
      by_cases hcd : c = '.'
      · rw [if_pos hcd]
        split
        · exact ⟨fun _ => rfl, fun _ => rfl⟩
        · exact ⟨fun _ => rfl, fun _ => rfl⟩
      · rw [if_neg hcd, if_pos rfl]
        exact ⟨fun _ => rfl, fun _ => rfl⟩
    · rw [if_neg hlpe]
      by_cases hcd : c = '.'
      · rw [if_pos hcd]
        split
        · exact h
        · exact h
      · rw [if_neg hcd]
        by_cases h0 : s.currentInput = "0"
        · rw [if_pos h0]
          exact h
        · rw [if_neg h0]
          split
          · exact h
          · exact h

theorem pressOperator_accPend (o : Op) (s : CalcState) (h : accPendSync s) :
    accPendSync (pressOperator o s) := by
  simp only [pressOperator]
  by_cases herr : s.currentInput = "ERROR"
  · rw [if_pos herr]
    exact h
  · rw [if_neg herr]
    rcases hacc : s.accumulator with _ | a
    · dsimp only
      exact ⟨by simp, by simp⟩
    · dsimp only
      by_cases hb : (!s.lastPressedEquals || s.pendingOp.isSome) = true
      · rw [if_pos hb]
        rcases hcomp : compute a (jsToNumber s.currentInput) (s.pendingOp.getD o)
            with _ | r
        · dsimp only
          exact ⟨fun _ => rfl, fun _ => rfl⟩
        · dsimp only
          exact ⟨by simp, by simp⟩
      · rw [if_neg hb]
        exact ⟨by simp, by simp⟩

theorem pressEquals_accPend (s : CalcState) (h : accPendSync s) :
    accPendSync (pressEquals s) := by
  simp only [pressEquals]
  by_cases herr : s.currentInput = "ERROR"
  · rw [if_pos herr]
    exact h
  · rw [if_neg herr]
    rcases hp : s.pendingOp with _ | o
    · dsimp only
      exact ⟨fun _ => rfl, fun _ => h.mpr hp⟩
    · dsimp only
      rcases hcomp : compute (s.accumulator.getD (.fin ⟨0, 1⟩))
          (jsToNumber s.currentInput) o with _ | r
      · dsimp only
        exact ⟨fun _ => rfl, fun _ => rfl⟩
      · dsimp only
        split
        · exact ⟨fun _ => rfl, fun _ => rfl⟩
        · exact ⟨fun _ => rfl, fun _ => rfl⟩

theorem backspaceKey_accPend (s : CalcState) (h : accPendSync s) :
    accPendSync (backspaceKey s) := by
  simp only [backspaceKey]
  split
  · exact ⟨fun _ => rfl, fun _ => rfl⟩
  · split
    · exact h
    · exact h

theorem step_accPend (c : Cmd) (s : CalcState) (h : accPendSync s) :
    accPendSync (step c s) := by
  have hupd : ∀ t : CalcState, accPendSync t → accPendSync (updateDisplay t) := by
    intro t ht
    obtain ⟨h1, h2, _⟩ := updateDisplay_fields t
    rw [accPendSync, h1, h2]
    exact ht
  cases c with
  | digit d => exact hupd _ (inputDigit_accPend _ s h)
  | dot => exact hupd _ (inputDigit_accPend _ s h)
  | oper o => exact hupd _ (pressOperator_accPend o s h)
  | equals => exact hupd _ (pressEquals_accPend s h)
  | clear => exact hupd _ ⟨fun _ => rfl, fun _ => rfl⟩
  | negate =>
    refine hupd _ ?_
    simp only [toggleNegate]
    split
    · exact h
    · split
      · exact h
      · split
        · exact h
        · exact h
  | percentCmd =>
    refine hupd _ ?_
    simp only [percent]
    split
    · exact h
    · split
      · exact h
      · exact h
  | backspace => exact hupd _ (backspaceKey_accPend s h)

/-- C10: in every state reachable from the initial state by any command sequence, the
Accumulator is null exactly when the PendingOperator is null: every command either
sets both (operator press), clears both (equals, clear, error transitions,
digit-after-equals reset), or touches neither. -/
theorem accumulator_pending_synchronized (l : List Cmd) :
    (run l initState).accumulator = none ↔ (run l initState).pendingOp = none := by
  suffices hgen : ∀ (l : List Cmd) (s : CalcState), accPendSync s → accPendSync (run l s) by
    exact hgen l initState ⟨fun _ => rfl, fun _ => rfl⟩
  intro l
  induction l with
  | nil => exact fun s h => h
  | cons c t ih =>
    intro s h
    exact ih (step c s) (step_accPend c s h)

/-- C4 counterexample: the command sequence 5, negate, backspace is reachable from the
initial state and leaves CurrentInput as the string "-", which is not the ERROR
sentinel and does not parse to a finite number (it parses to NaN). -/
theorem backspace_nonnumeric_cex :
    (run [.digit 5, .negate, .backspace] initState).currentInput = "-" ∧
    (run [.digit 5, .negate, .backspace] initState).currentInput ≠ "ERROR" ∧
    jsToNumber (run [.digit 5, .negate, .backspace] initState).currentInput
      = JSNum.nan := by
  decide

theorem goodInput_ne_ERROR {s : CalcState} (h : goodInput s)
    (herr : s.currentInput ≠ "ERROR") :
    s.currentInput.data ≠ [] ∧ headOk s.currentInput = true ∧
    isFinite (jsToNumber s.currentInput) = true ∧
    (hasExp s.currentInput = true → s.lastPressedEquals = true) := by
  rcases h with h | h
  · exact absurd h herr
  · exact h

theorem goodInput_of_parts {s : CalcState} (h1 : s.currentInput.data ≠ [])
    (h2 : headOk s.currentInput = true)
    (h3 : isFinite (jsToNumber s.currentInput) = true)
    (h4 : hasExp s.currentInput = false) : goodInput s := by
  right
  refine ⟨h1, h2, h3, ?_⟩
  intro hx
  rw [h4] at hx
  exact absurd hx (by decide)

theorem goodInput_of_ci_zero {s : CalcState} (hci : s.currentInput = "0") :
    goodInput s := by
  right
  rw [hci]
  refine ⟨by decide, by decide, by decide, ?_⟩
  intro hx
  exact absurd hx (by decide)

theorem goodInput_single_char {s : CalcState} {c : Char}
    (hci : s.currentInput = ⟨[c]⟩) (hc : isDig c = true) : goodInput s := by
  have hfacts := isDig_facts hc
  refine goodInput_of_parts ?_ ?_ ?_ ?_ <;> rw [hci]
  · simp
  · exact headOk_of_head (by simp [hfacts.2.2.2.1])
  · exact (jsToNumber_of_core (parseUnsigned_digits (by simp [hc]) (by simp))).1
  · show (([c] : List Char).any (fun x => x == 'e' || x == 'E')) = false
    simp [isExpChar_false_of_notExpChar hfacts.1]

theorem goodInput_equals_output {s : CalcState} {q : Frac}
    (hci : s.currentInput = numToString (.fin q))
    (hlpe : s.lastPressedEquals = true) : goodInput s := by
  right
  obtain ⟨hf, hne, hh⟩ := numToString_fin_facts q
  rw [hci]
  exact ⟨hne, hh, hf, fun _ => hlpe⟩

theorem inputDigit_goodInput (c : Char) (s : CalcState) (h : goodInput s)
    (hc : isDig c = true ∨ c = '.') : goodInput (inputDigit c s) := by
  by_cases herr : s.currentInput = "ERROR"
  · simp only [inputDigit, if_pos herr]
    exact h
  · obtain ⟨hne, hhead, hfin, hexp⟩ := goodInput_ne_ERROR h herr
    simp only [inputDigit, if_neg herr]
    by_cases hlpe : s.lastPressedEquals = true
    · rw [if_pos hlpe]
      by_cases hcd : c = '.'
      · rw [if_pos hcd]
        rw [if_neg (show ¬(hasDot ("0" : String) = true) by decide)]
        subst hcd
        refine goodInput_of_parts (by simp) (headOk_of_head (by simp)) ?_ (by decide)
        exact (jsToNumber_of_core (@parseUnsigned_with_dot ['0'] []
          (by decide) (by decide) (Or.inl (by simp)))).1
      · rw [if_neg hcd, if_pos rfl]
        rcases hc with hc | hc
        · exact goodInput_single_char rfl hc
        · exact absurd hc hcd
    · rw [if_neg hlpe]
      have hlpe' : s.lastPressedEquals = false := by simpa using hlpe
      have hexp' : hasExp s.currentInput = false := by
        by_cases hx : hasExp s.currentInput = true
        · rw [hexp hx] at hlpe'
          exact absurd hlpe' (by decide)
        · simpa using hx
      by_cases hcd : c = '.'
      · rw [if_pos hcd]
        by_cases hdot : hasDot s.currentInput = true
        · rw [if_pos hdot]
          exact h
        · rw [if_neg hdot]
          subst hcd
          have hdot' : hasDot s.currentInput = false := by simpa using hdot
          obtain ⟨g1, g2, g3, g4⟩ := append_char_invariant hfin hne hhead hexp'
            (Or.inr ⟨rfl, hdot'⟩)
          exact goodInput_of_parts (by simp [g2]) g3 g1 g4
      · rw [if_neg hcd]
        by_cases h0 : s.currentInput = "0"
        · rw [if_pos h0]
          rcases hc with hc | hc
          · exact goodInput_single_char rfl hc
          · exact absurd hc hcd
        · rw [if_neg h0]
          by_cases hbound : MAX_DIGITS ≤ jsReplaceDotLen s.currentInput
          · rw [if_pos hbound]
            exact h
          · rw [if_neg hbound]
            rcases hc with hc | hc
            · obtain ⟨g1, g2, g3, g4⟩ := append_char_invariant hfin hne hhead hexp'
                (Or.inl hc)
              exact goodInput_of_parts (by simp [g2]) g3 g1 g4
            · exact absurd hc hcd

theorem toggleNegate_goodInput (s : CalcState) (h : goodInput s) :
    goodInput (toggleNegate s) := by
  by_cases herr : s.currentInput = "ERROR"
  · simp only [toggleNegate, if_pos herr]
    exact h
  · obtain ⟨hne, hhead, hfin, hexp⟩ := goodInput_ne_ERROR h herr
    simp only [toggleNegate, if_neg herr]
    by_cases h0 : s.currentInput = "0"
    · rw [if_pos h0]
      exact h
    · rw [if_neg h0]
      split
      · next t hdata =>
        obtain ⟨g1, g2, g3, g4⟩ := negate_drop_invariant hfin hdata
        right
        refine ⟨by simpa using g2, g3, g1, ?_⟩
        intro hx
        by_cases hsx : hasExp s.currentInput = true
        · exact hexp hsx
        · have := g4 (by simpa using hsx)
          rw [this] at hx
          exact absurd hx (by decide)
      · next hmatch =>
        have hnm : s.currentInput.data.head? ≠ some '-' := by
          rcases hdata : s.currentInput.data with _ | ⟨x, t⟩
          · simp
          · simp only [List.head?_cons, ne_eq, Option.some_inj]
            intro hx
            subst hx
            exact hmatch t hdata
        obtain ⟨g1, g2, g3⟩ := negate_prepend_invariant hfin hne hhead hnm
        right
        refine ⟨by simp, g2, g1, ?_⟩
        intro hx
        by_cases hsx : hasExp s.currentInput = true
        · exact hexp hsx
        · have := g3 (by simpa using hsx)
          rw [this] at hx
          exact absurd hx (by decide)

theorem pressOperator_goodInput (o : Op) (s : CalcState) (h : goodInput s) :
    goodInput (pressOperator o s) := by
  by_cases herr : s.currentInput = "ERROR"
  · simp only [pressOperator, if_pos herr]
    exact h
  · simp only [pressOperator, if_neg herr]
    rcases hacc : s.accumulator with _ | a
    · dsimp only
      exact goodInput_of_ci_zero rfl
    · dsimp only
      by_cases hb : (!s.lastPressedEquals || s.pendingOp.isSome) = true
      · rw [if_pos hb]
        rcases hcomp : compute a (jsToNumber s.currentInput) (s.pendingOp.getD o)
            with _ | r
        · dsimp only
          exact Or.inl rfl
        · dsimp only
          exact goodInput_of_ci_zero rfl
      · rw [if_neg hb]
        exact goodInput_of_ci_zero rfl

theorem pressEquals_goodInput (s : CalcState) (h : goodInput s) :
    goodInput (pressEquals s) := by
  by_cases herr : s.currentInput = "ERROR"
  · simp only [pressEquals, if_pos herr]
    exact h
  · obtain ⟨hne, hhead, hfin, _⟩ := goodInput_ne_ERROR h herr
    simp only [pressEquals, if_neg herr]
    rcases hp : s.pendingOp with _ | o
    · dsimp only
      right
      exact ⟨hne, hhead, hfin, fun _ => rfl⟩
    · dsimp only
      rcases hcomp : compute (s.accumulator.getD (.fin ⟨0, 1⟩))
          (jsToNumber s.currentInput) o with _ | r
      · dsimp only
        exact Or.inl rfl
      · dsimp only
        by_cases hf : isFinite r = true
        · rw [if_pos hf]
          obtain ⟨q, rfl⟩ := isFinite_exists_fin hf
          obtain ⟨q', hq'⟩ := isFinite_exists_fin (roundForDisplay_fin q)
          exact goodInput_equals_output (by rw [hq']) rfl
        · rw [if_neg hf]
          exact Or.inl rfl

theorem updateDisplay_cases (s : CalcState) :
    updateDisplay s = s ∨ updateDisplay s = { s with currentInput := "ERROR" } := by
  simp only [updateDisplay]
  split
  · exact Or.inl rfl
  · split
    · exact Or.inr rfl
    · exact Or.inl rfl

theorem step_goodInput (c : Cmd) (s : CalcState) (h : goodInput s)
    (hc : c ≠ Cmd.backspace ∧ c ≠ Cmd.percentCmd) : goodInput (step c s) := by
  have hupd : ∀ t : CalcState, goodInput t → goodInput (updateDisplay t) := by
    intro t ht
    rcases updateDisplay_cases t with hcase | hcase
    · rw [hcase]
      exact ht
    · rw [hcase]
      exact Or.inl rfl
  cases c with
  | digit d =>
    refine hupd _ (inputDigit_goodInput _ s h (Or.inl ?_))
    revert d
    decide
  | dot => exact hupd _ (inputDigit_goodInput _ s h (Or.inr rfl))
  | oper o => exact hupd _ (pressOperator_goodInput o s h)
  | equals => exact hupd _ (pressEquals_goodInput s h)
  | clear => exact hupd _ (goodInput_of_ci_zero rfl)
  | negate => exact hupd _ (toggleNegate_goodInput s h)
  | percentCmd => exact absurd rfl hc.2
  | backspace => exact absurd rfl hc.1

/-- C4 (amended): in every state reachable from the initial state by command sequences
avoiding backspace and percent, CurrentInput parses to a finite number unless it
equals the ERROR sentinel; backspace can break the invariant (slicing "-5" to the
non-numeric string "-"), and percent can then leak such a string onward. -/
theorem finite_input_invariant (l : List Cmd)
    (hl : ∀ c ∈ l, c ≠ Cmd.backspace ∧ c ≠ Cmd.percentCmd) :
    (run l initState).currentInput = "ERROR" ∨
    isFinite (jsToNumber (run l initState).currentInput) = true := by
  suffices hgen : ∀ (l : List Cmd) (s : CalcState),
      (∀ c ∈ l, c ≠ Cmd.backspace ∧ c ≠ Cmd.percentCmd) → goodInput s →
      goodInput (run l s) by
    have hinit : goodInput initState := by
      right
      refine ⟨by decide, by decide, by decide, ?_⟩
      intro hx
      exact absurd hx (by decide)
    rcases hgen l initState hl hinit with hg | hg
    · exact Or.inl hg
    · exact Or.inr hg.2.2.1
  intro l
  induction l with
  | nil => exact fun s _ h => h
  | cons c t ih =>
    intro s hmem h
    exact ih (step c s) (fun x hx => hmem x (List.mem_cons_of_mem _ hx))
      (step_goodInput c s h (hmem c (List.mem_cons_self _ _)))

theorem finite_input_invariant_witness :
    (run [.digit 5, .oper .add, .digit 3, .equals] initState).currentInput = "ERROR" ∨
    isFinite (jsToNumber
      (run [.digit 5, .oper .add, .digit 3, .equals] initState).currentInput) = true :=
  finite_input_invariant [.digit 5, .oper .add, .digit 3, .equals] (by decide)

end CalcSpec
